import Mathlib

/-!
Shallow embedding of the Smart-Attendance-System core
(`src/utils/attendance_manager.py`, `src/utils/database.py`,
`src/utils/embedder.py`, `src/utils/face_detector.py`) together with
theorems settling the specification claims about it.

Strings are modelled by Lean `String`; Python `str.strip` and `str.lower`
are re-implemented over the character list so that they evaluate in the
kernel.  Durable files are modelled as explicit state components
(`none` = file absent).  Floating-point values are modelled by `ℚ` where
only ordering matters (cosine distances) and by `ℝ` for the norm claim.
External collaborators (the sklearn cosine kernel, the ONNX session, the
OpenCV cascade and resize) enter as function parameters of the embedded
operations.
-/

/-- Python `str.strip` on the character list: drop leading and trailing
whitespace. -/
def stripChars (l : List Char) : List Char :=
  ((l.dropWhile Char.isWhitespace).reverse.dropWhile Char.isWhitespace).reverse

/-- Python `name.strip()`. -/
def pyStrip (s : String) : String := String.mk (stripChars s.data)

/-- Python `str.lower` (ASCII case folding, which covers the data the
system stores). -/
def pyLower (s : String) : String := String.mk (s.data.map Char.toLower)

/-- `hay` starts with `pat` (character lists). -/
def strInitSeg : List Char → List Char → Bool
  | _, [] => true
  | [], _ :: _ => false
  | a :: hs, b :: ps => a == b && strInitSeg hs ps

/-- `pat` occurs as a contiguous substring of `hay`: the semantics of
`Series.str.contains` for a literal pattern. -/
def strHasSub : List Char → List Char → Bool
  | [], pat => strInitSeg [] pat
  | h :: t, pat => strInitSeg (h :: t) pat || strHasSub t pat

/-- One row of the attendance CSV: columns `Name, Date, Time`. -/
structure AttendanceRecord where
  name : String
  date : String
  time : String
deriving DecidableEq, Repr

/-- The mutable state of `AttendanceManager`: the durable CSV contents
(`none` when the file does not exist) and the in-session suppression set
`marked_today`. -/
structure AttState where
  csv : Option (List AttendanceRecord)
  marked : List String
deriving DecidableEq, Repr

namespace AttendanceManager

/-- `df[(df['Name'] == name) & (df['Date'] == today)]` is non-empty. -/
def hasRecord (rs : List AttendanceRecord) (n d : String) : Bool :=
  rs.any fun r => r.name == n && r.date == d

/-- The CSV pre-check of `mark_attendance`: the guard
`os.path.exists` makes a missing file count as "no record", and an
empty frame (`len(df) == 0`) has no matching rows either. -/
def hasRecordOpt : Option (List AttendanceRecord) → String → String → Bool
  | some rs, n, d => hasRecord rs n d
  | none, _, _ => false

/-- `AttendanceManager.mark_attendance(name)`.  The ambient clock values
`today` and `ctime` are passed explicitly.  Returns the Python `bool`
result together with the updated state. -/
def mark_attendance (st : AttState) (name : Option String) (today ctime : String) :
    Bool × AttState :=
  match name with
  | none => (false, st)
  | some raw =>
    if pyStrip raw = "" then (false, st)
    else
      let n := pyStrip raw
      if n ∈ st.marked then (false, st)
      else if hasRecordOpt st.csv n today then (false, st)
      else
        (true, { csv := some ((st.csv.getD []) ++ [⟨n, today, ctime⟩]),
                 marked := n :: st.marked })

/-- `AttendanceManager.reset_session()`: clear `marked_today`. -/
def reset_session (st : AttState) : AttState := { st with marked := [] }

/-- A whole in-process sequence of `mark_attendance` calls, each with its
own clock reading. -/
def runMarks (st : AttState) (calls : List (Option String × String × String)) : AttState :=
  calls.foldl (fun s c => (mark_attendance s c.1 c.2.1 c.2.2).2) st

/-- The ledger invariant: no two stored rows share the same
(identity, date) pair. -/
def pairsNodup (csv : Option (List AttendanceRecord)) : Prop :=
  ((csv.getD []).map fun r => (r.name, r.date)).Nodup

/-- Row order used by `df.sort_values(by=['Date', 'Time'], ascending=False)`:
`r1` precedes `r2` when its (Date, Time) key is lexicographically at least
`r2`'s (string comparison, dates `YYYY-MM-DD`, times `HH:MM:SS`). -/
def descLE (r1 r2 : AttendanceRecord) : Bool :=
  decide (r2.date.data < r1.date.data) ||
  (r2.date.data == r1.date.data && decide (r2.time.data ≤ r1.time.data))

/-- The claim-side combined row filter of `get_attendance_log`: exact
date match and case-insensitive *substring* name match (a missing filter
accepts everything).  The regex search the source performs coincides
with this exactly on metacharacter-free literal patterns. -/
def logPred (dateF nameF : Option String) (r : AttendanceRecord) : Bool :=
  (match dateF with
   | some d => r.date == d
   | none => true) &&
  (match nameF with
   | some f => strHasSub (pyLower r.name).data (pyLower f).data
   | none => true)

/-- `AttendanceManager.get_attendance_log(date_filter, name_filter)`.
A `None` or empty-string filter is falsy in Python, so it is skipped.
The name filter is `df['Name'].str.contains(name_filter, case=False,
na=False)`, a *regex* search (pandas default `regex=True`) with the
IGNORECASE flag: the engine is abstracted as `search`, where
`search pat = none` models `re.error` on an invalid pattern (the call
raises, modelled as `.error ()`) and `search pat = some m` gives the
compiled case-insensitive matcher `m` applied to each Name. -/
def get_attendance_log (search : String → Option (String → Bool))
    (csv : Option (List AttendanceRecord)) (dateF nameF : Option String) :
    Except Unit (List AttendanceRecord) :=
  match csv with
  | none => .ok []
  | some rs =>
    if rs.length = 0 then .ok rs
    else
      let rs1 :=
        match dateF with
        | some d => if d = "" then rs else rs.filter fun r => r.date == d
        | none => rs
      match nameF with
      | some f =>
        if f = "" then .ok (rs1.mergeSort descLE)
        else
          match search f with
          | none => .error ()
          | some m => .ok ((rs1.filter fun r => m r.name).mergeSort descLE)
      | none => .ok (rs1.mergeSort descLE)

/-- What `compare_embeddings` hands back to its caller: either the bare
float `0.0` (the early `return 0.0` when an argument is `None`) or the
`(distance, similarity)` pair. -/
inductive CmpResult where
  | scalar (x : ℚ)
  | pair (distance similarity : ℚ)
deriving DecidableEq, Repr

/-- `AttendanceManager.compare_embeddings(embedding1, embedding2)`.
The sklearn cosine kernel is abstracted as the parameter `sim`. -/
def compare_embeddings {E : Type} (sim : E → E → ℚ) :
    Option E → Option E → CmpResult
  | none, _ => .scalar 0
  | some _, none => .scalar 0
  | some a, some b => .pair (1 - sim a b) (sim a b)

/-- The scan loop of `find_match`: `distance, similarity =
self.compare_embeddings(...)` raises (modelled as `.error ()`) when the
result is the bare float, and otherwise keeps the strictly best
`(best_match, best_distance)` seen so far (`none` models the initial
`best_match = None`, `best_distance = inf` pair, which any finite
distance beats). -/
def matchLoop {E : Type} (sim : E → E → ℚ) (q : Option E) :
    List (String × E) → Option (String × ℚ) → Except Unit (Option (String × ℚ))
  | [], acc => .ok acc
  | p :: rest, acc =>
    match compare_embeddings sim q (some p.2) with
    | .scalar _ => .error ()
    | .pair d _ =>
      match acc with
      | none => matchLoop sim q rest (some (p.1, d))
      | some (bn, bd) =>
        if d < bd then matchLoop sim q rest (some (p.1, d))
        else matchLoop sim q rest (some (bn, bd))

/-- `AttendanceManager.find_match(query_embedding, threshold)` over the
loaded registry `regs`.  The final guard `if best_match and
best_distance < threshold` keeps Python's truthiness: an empty-string
best name is falsy. -/
def find_match {E : Type} (sim : E → E → ℚ) (q : Option E)
    (regs : List (String × E)) (threshold : ℚ) :
    Except Unit (Option (String × ℚ)) :=
  if regs.length = 0 then .ok none
  else
    match matchLoop sim q regs none with
    | .error e => .error e
    | .ok none => .ok none
    | .ok (some (bn, bd)) =>
      if bn ≠ "" ∧ bd < threshold then .ok (some (bn, bd)) else .ok none

end AttendanceManager

namespace EmbeddingDatabase

/-- The pickle file backing the registry: absent, unreadable, or a valid
snapshot of the name→embedding mapping (insertion-ordered, unique keys,
like a Python dict). -/
inductive DiskState (E : Type) where
  | missing
  | corrupt
  | good (entries : List (String × E))
deriving DecidableEq, Repr

/-- The mutable state of `EmbeddingDatabase`: the durable pickle file and
the in-memory `self.embeddings` dict. -/
structure DbState (E : Type) where
  disk : DiskState E
  mem : List (String × E)
deriving DecidableEq, Repr

/-- `EmbeddingDatabase.load_embeddings()`: reload `self.embeddings` from
the file — an absent file or a failed unpickle both degrade to the empty
dict (the latter with a printed warning) — and return a copy. -/
def load_embeddings {E : Type} (st : DbState E) : List (String × E) × DbState E :=
  match st.disk with
  | .good m => (m, { st with mem := m })
  | .corrupt => ([], { st with mem := [] })
  | .missing => ([], { st with mem := [] })

/-- Python dict assignment `d[k] = v`: overwrite in place or append. -/
def dictInsert {E : Type} (k : String) (v : E) :
    List (String × E) → List (String × E)
  | [] => [(k, v)]
  | (q, w) :: rest => if q = k then (q, v) :: rest else (q, w) :: dictInsert k v rest

/-- Python dict lookup `d.get(k)`. -/
def dictGet {E : Type} (k : String) : List (String × E) → Option E
  | [] => none
  | (q, w) :: rest => if q = k then some w else dictGet k rest

/-- `EmbeddingDatabase.save_embedding(name, embedding)`: validate the
arguments (raising, modelled as `.error ()`, leaves the state untouched),
reload from disk, update the dict under the stripped name, and dump the
whole dict back to the file. -/
def save_embedding {E : Type} (st : DbState E) (name : Option String)
    (emb : Option E) : Except Unit Unit × DbState E :=
  match name with
  | none => (.error (), st)
  | some raw =>
    if pyStrip raw = "" then (.error (), st)
    else
      match emb with
      | none => (.error (), st)
      | some e =>
        let st1 := (load_embeddings st).2
        let m := dictInsert (pyStrip raw) e st1.mem
        (.ok (), { disk := .good m, mem := m })

/-- `EmbeddingDatabase.get_all_names()`: reload, then list the keys. -/
def get_all_names {E : Type} (st : DbState E) : List String × DbState E :=
  let p := load_embeddings st
  (p.2.mem.map Prod.fst, p.2)

/-- `EmbeddingDatabase.get_embedding(name)`: reload, then
`self.embeddings.get(name.strip())`. -/
def get_embedding {E : Type} (st : DbState E) (name : String) :
    Option E × DbState E :=
  let p := load_embeddings st
  (dictGet (pyStrip name) p.2.mem, p.2)

/-- `EmbeddingDatabase.get_count()`: reload, then the dict size. -/
def get_count {E : Type} (st : DbState E) : ℕ × DbState E :=
  let p := load_embeddings st
  (p.2.mem.length, p.2)

end EmbeddingDatabase

namespace FaceEmbedder

/-- Euclidean norm of a length-`n` real vector (`np.linalg.norm`). -/
noncomputable def l2norm {n : ℕ} (v : Fin n → ℝ) : ℝ :=
  Real.sqrt (∑ i, v i ^ 2)

/-- `embedding = embedding / np.linalg.norm(embedding)`. -/
noncomputable def l2normalize {n : ℕ} (v : Fin n → ℝ) : Fin n → ℝ :=
  fun i => v i / l2norm v

/-- `FaceEmbedder.get_embedding(face_image)`: reject a `None` image
(`raise ValueError`, modelled as `.error ()`), run preprocessing and the
ONNX session — abstracted together as `run`, which already includes the
batch-axis strip `outputs[0][0]` — and L2-normalize the raw output. -/
noncomputable def get_embedding {Img : Type} {n : ℕ} (run : Img → Fin n → ℝ)
    (face : Option Img) : Except Unit (Fin n → ℝ) :=
  match face with
  | none => .error ()
  | some im => .ok (l2normalize (run im))

end FaceEmbedder

/-- A candidate rectangle `(x, y, w, h)` from `detectMultiScale`. -/
structure Rect where
  x : ℕ
  y : ℕ
  w : ℕ
  h : ℕ
deriving DecidableEq, Repr

namespace FaceDetector

/-- `max(faces, key=lambda rect: rect[2] * rect[3])` on the non-empty
candidate list `r :: rest`: Python's `max` keeps the incumbent unless a
later candidate is strictly larger, so ties go to the earliest. -/
def largestRect (r : Rect) (rest : List Rect) : Rect :=
  rest.foldl (fun best c => if c.w * c.h > best.w * best.h then c else best) r

/-- `FaceDetector.detect_face(frame)`: a `None` frame or an empty
candidate list yields `(None, None)`; otherwise the largest-area
candidate is cropped and resized (`cropResize` abstracts the two OpenCV
calls) and returned together with its original, unscaled bounding box. -/
def detect_face {Frame Img : Type} (cascade : Frame → List Rect)
    (cropResize : Frame → Rect → Img) (frame : Option Frame) :
    Option (Img × Rect) :=
  match frame with
  | none => none
  | some f =>
    match cascade f with
    | [] => none
    | r :: rest =>
      let lf := largestRect r rest
      some (cropResize f lf, lf)

end FaceDetector

/-! ## Theorems -/

namespace AttendanceManager

lemma hasRecord_eq_false_iff (rs : List AttendanceRecord) (n d : String) :
    hasRecord rs n d = false ↔ ∀ r ∈ rs, ¬(r.name = n ∧ r.date = d) := by
  simp [hasRecord, List.any_eq_true]

lemma mark_attendance_preserves_pairsNodup (st : AttState) (name : Option String)
    (today ctime : String) (h : pairsNodup st.csv) :
    pairsNodup (mark_attendance st name today ctime).2.csv := by
  match name with
  | none => exact h
  | some raw =>
    by_cases h0 : pyStrip raw = ""
    · simpa [mark_attendance, h0] using h
    · set n := pyStrip raw with hn
      by_cases h1 : n ∈ st.marked
      · simpa [mark_attendance, h0, h1] using h
      · by_cases h2 : hasRecordOpt st.csv n today
        · simpa [mark_attendance, h0, h1, h2] using h
        · have heq : mark_attendance st (some raw) today ctime =
              (true, { csv := some ((st.csv.getD []) ++ [⟨n, today, ctime⟩]),
                       marked := n :: st.marked }) := by
            simp [mark_attendance, h0, h1, h2, hn]
          rw [heq]
          match hcsv : st.csv with
          | none =>
            simp [pairsNodup]
          | some rs =>
            have h2' : hasRecord rs n today = false := by
              have := h2
              rw [hcsv] at this
              simpa [hasRecordOpt] using this
            have hnot : (n, today) ∉ rs.map fun r => (r.name, r.date) := by
              rw [hasRecord_eq_false_iff] at h2'
              intro hmem
              rcases List.mem_map.mp hmem with ⟨r, hr, hpair⟩
              exact h2' r hr ⟨congrArg Prod.fst hpair, congrArg Prod.snd hpair⟩
            have h' : pairsNodup (some rs) := by rw [hcsv] at h; exact h
            simp only [pairsNodup, Option.getD_some, List.map_append, List.map_cons,
              List.map_nil, List.nodup_append] at h' ⊢
            refine ⟨h', by simp, ?_⟩
            intro p hp
            simp only [List.mem_singleton]
            intro heq'
            exact hnot (heq' ▸ hp)

/-- C1: starting from a store with no duplicate (identity, date) pair, no
sequence of `mark_attendance` calls ever creates one, because a record is
appended only when neither the suppression set nor the stored records
already contain that identity for the call's date. -/
theorem C1_ledger_pair_uniqueness :
    (∀ (st : AttState) (calls : List (Option String × String × String)),
      pairsNodup st.csv → pairsNodup (runMarks st calls).csv) ∧
    (∀ (st : AttState) (raw today ctime : String),
      (mark_attendance st (some raw) today ctime).1 = true →
      pyStrip raw ∉ st.marked ∧ hasRecordOpt st.csv (pyStrip raw) today = false) := by
  constructor
  · intro st calls
    induction calls generalizing st with
    | nil => intro h; exact h
    | cons c rest ih =>
      intro h
      exact ih _ (mark_attendance_preserves_pairsNodup st c.1 c.2.1 c.2.2 h)
  · intro st raw today ctime h
    by_cases h0 : pyStrip raw = ""
    · simp [mark_attendance, h0] at h
    · by_cases h1 : pyStrip raw ∈ st.marked
      · simp [mark_attendance, h0, h1] at h
      · by_cases h2 : hasRecordOpt st.csv (pyStrip raw) today
        · simp [mark_attendance, h0, h1, h2] at h
        · exact ⟨h1, by simpa using h2⟩

/-- Witness for C1 at a concrete state and call sequence. -/
theorem C1_ledger_pair_uniqueness_witness :
    pairsNodup (runMarks ⟨some [], []⟩
      [(some "Alice", "2024-01-01", "09:00:00"),
       (some "Alice", "2024-01-01", "09:05:00"),
       (some "Alice", "2024-01-02", "09:00:00")]).csv :=
  C1_ledger_pair_uniqueness.1 ⟨some [], []⟩ _ (by simp [pairsNodup])

/-- C2: with a fresh ledger state for the identity, marking twice on one
date yields `true` then `false`; marking on two different dates (with the
session reset in between) yields `true` both times. -/
theorem C2_ledger_idempotence (st : AttState) (raw d1 t1 t2 d2 t3 : String)
    (hname : pyStrip raw ≠ "")
    (hsess : pyStrip raw ∉ st.marked)
    (hd1 : hasRecordOpt st.csv (pyStrip raw) d1 = false)
    (hd2 : hasRecordOpt st.csv (pyStrip raw) d2 = false)
    (hdates : d2 ≠ d1) :
    (mark_attendance st (some raw) d1 t1).1 = true ∧
    (mark_attendance (mark_attendance st (some raw) d1 t1).2 (some raw) d1 t2).1 = false ∧
    (mark_attendance (reset_session (mark_attendance st (some raw) d1 t1).2)
        (some raw) d2 t3).1 = true := by
  have hfirst : mark_attendance st (some raw) d1 t1 =
      (true, { csv := some ((st.csv.getD []) ++ [⟨pyStrip raw, d1, t1⟩]),
               marked := pyStrip raw :: st.marked }) := by
    simp [mark_attendance, hname, hsess, hd1]
  refine ⟨by rw [hfirst], ?_, ?_⟩
  · rw [hfirst]
    simp [mark_attendance, hname]
  · rw [hfirst]
    have hrec : hasRecordOpt (some ((st.csv.getD []) ++ [⟨pyStrip raw, d1, t1⟩]))
        (pyStrip raw) d2 = false := by
      simp only [hasRecordOpt, hasRecord, List.any_append, Bool.or_eq_false_iff]
      constructor
      · match hcsv : st.csv with
        | none => simp [hasRecord]
        | some rs =>
          have : hasRecord rs (pyStrip raw) d2 = false := by
            have := hd2; rw [hcsv] at this; simpa [hasRecordOpt] using this
          simpa [hasRecord] using this
      · simp
        exact fun h => hdates h.symm
    have hd12 : ¬(d1 = d2) := fun h => hdates h.symm
    simp [mark_attendance, reset_session, hname, hrec, hd12]

/-- Witness for C2 at concrete inputs. -/
theorem C2_ledger_idempotence_witness :
    (mark_attendance ⟨some [], []⟩ (some "Alice") "2024-01-01" "09:00:00").1 = true ∧
    (mark_attendance (mark_attendance ⟨some [], []⟩ (some "Alice") "2024-01-01" "09:00:00").2
        (some "Alice") "2024-01-01" "09:05:00").1 = false ∧
    (mark_attendance (reset_session
        (mark_attendance ⟨some [], []⟩ (some "Alice") "2024-01-01" "09:00:00").2)
        (some "Alice") "2024-01-02" "09:00:00").1 = true :=
  C2_ledger_idempotence ⟨some [], []⟩ "Alice" "2024-01-01" "09:00:00" "09:05:00"
    "2024-01-02" "09:00:00" (by decide) (by decide) (by decide) (by decide) (by decide)

/-- C4 (amended): when the durable store already holds a record for the
identity and date and the identity is not in the suppression set,
`mark_attendance` returns `false` and leaves the state — in particular
the suppression set — unchanged. -/
theorem C4_already_marked_no_self_heal (st : AttState) (raw today ctime : String)
    (rs : List AttendanceRecord)
    (hname : pyStrip raw ≠ "")
    (hsess : pyStrip raw ∉ st.marked)
    (hcsv : st.csv = some rs)
    (hrec : hasRecord rs (pyStrip raw) today = true) :
    mark_attendance st (some raw) today ctime = (false, st) := by
  have h2 : hasRecordOpt st.csv (pyStrip raw) today = true := by
    rw [hcsv]; simpa [hasRecordOpt] using hrec
  simp [mark_attendance, hname, hsess, h2]

/-- Counterexample to C4 as stated: the identity found in durable storage
is *not* added to the in-session suppression set. -/
theorem C4_counterexample :
    (mark_attendance ⟨some [⟨"Alice", "2024-01-01", "09:00:00"⟩], []⟩
        (some "Alice") "2024-01-01" "10:00:00").1 = false ∧
    "Alice" ∉ (mark_attendance ⟨some [⟨"Alice", "2024-01-01", "09:00:00"⟩], []⟩
        (some "Alice") "2024-01-01" "10:00:00").2.marked := by
  decide

/-- Witness for C4's amended theorem at concrete inputs. -/
theorem C4_already_marked_no_self_heal_witness :
    mark_attendance ⟨some [⟨"Alice", "2024-01-01", "09:00:00"⟩], []⟩
        (some "Alice") "2024-01-01" "10:00:00" =
      (false, ⟨some [⟨"Alice", "2024-01-01", "09:00:00"⟩], []⟩) :=
  C4_already_marked_no_self_heal ⟨some [⟨"Alice", "2024-01-01", "09:00:00"⟩], []⟩
    "Alice" "2024-01-01" "10:00:00" [⟨"Alice", "2024-01-01", "09:00:00"⟩]
    (by decide) (by decide) rfl (by decide)

end AttendanceManager

namespace EmbeddingDatabase

lemma load_mem_eq {E : Type} (st : DbState E) :
    (load_embeddings st).2.mem = (load_embeddings st).1 := by
  obtain ⟨d, m⟩ := st
  cases d <;> rfl

lemma dictGet_insert_self {E : Type} (k : String) (v : E) :
    ∀ m : List (String × E), dictGet k (dictInsert k v m) = some v := by
  intro m
  induction m with
  | nil => simp [dictInsert, dictGet]
  | cons p rest ih =>
    obtain ⟨q, w⟩ := p
    by_cases hq : q = k
    · simp [dictInsert, dictGet, hq]
    · simp [dictInsert, dictGet, hq, ih]

lemma dictGet_insert_ne {E : Type} (k k' : String) (v : E) (hne : k' ≠ k) :
    ∀ m : List (String × E), dictGet k' (dictInsert k v m) = dictGet k' m := by
  have hkk : ¬(k = k') := fun hh => hne hh.symm
  intro m
  induction m with
  | nil => simp [dictInsert, dictGet, hkk]
  | cons p rest ih =>
    obtain ⟨q, w⟩ := p
    by_cases hq : q = k
    · subst hq
      simp [dictInsert, dictGet, hkk]
    · simp [dictInsert, dictGet, hq, ih]

/-- C5: `save_embedding` rejects a `None`/whitespace name and a `None`
embedding without touching any state, and for valid arguments it updates
the entry under the stripped name and persists the whole updated mapping
to the durable snapshot before returning. -/
theorem C5_registry_upsert {E : Type} :
    (∀ (st : DbState E) (emb : Option E),
      save_embedding st none emb = (.error (), st)) ∧
    (∀ (st : DbState E) (raw : String) (emb : Option E), pyStrip raw = "" →
      save_embedding st (some raw) emb = (.error (), st)) ∧
    (∀ (st : DbState E) (raw : String), pyStrip raw ≠ "" →
      save_embedding st (some raw) none = (.error (), st)) ∧
    (∀ (st : DbState E) (raw : String) (e : E), pyStrip raw ≠ "" →
      save_embedding st (some raw) (some e) =
        (.ok (), ⟨.good (dictInsert (pyStrip raw) e (load_embeddings st).1),
                  dictInsert (pyStrip raw) e (load_embeddings st).1⟩) ∧
      dictGet (pyStrip raw) (dictInsert (pyStrip raw) e (load_embeddings st).1) = some e ∧
      (∀ k, k ≠ pyStrip raw →
        dictGet k (dictInsert (pyStrip raw) e (load_embeddings st).1) =
          dictGet k (load_embeddings st).1)) := by
  refine ⟨fun st emb => rfl, ?_, ?_, ?_⟩
  · intro st raw emb h
    simp [save_embedding, h]
  · intro st raw h
    simp [save_embedding, h]
  · intro st raw e h
    refine ⟨?_, dictGet_insert_self _ _ _, fun k hk => dictGet_insert_ne _ _ _ hk _⟩
    simp [save_embedding, h, load_mem_eq]

/-- Witness for C5 at concrete inputs: inserting under a name that needs
stripping, next to an existing entry. -/
theorem C5_registry_upsert_witness :
    save_embedding (⟨.good [("Bob", 1)], [("Bob", 1)]⟩ : DbState ℕ)
        (some " Alice ") (some 2) =
      (.ok (), ⟨.good [("Bob", 1), ("Alice", 2)], [("Bob", 1), ("Alice", 2)]⟩) := by
  have h := (C5_registry_upsert.2.2.2 (⟨.good [("Bob", 1)], [("Bob", 1)]⟩ : DbState ℕ)
    " Alice " 2 (by decide)).1
  rw [h]
  rfl

/-- C7: when the durable snapshot is missing or unreadable, every read
operation degrades to the empty registry instead of failing. -/
theorem C7_registry_load_degrades {E : Type} (st : DbState E)
    (h : st.disk = .missing ∨ st.disk = .corrupt) :
    load_embeddings st = ([], { st with mem := [] }) ∧
    (get_all_names st).1 = [] ∧
    (∀ name, (get_embedding st name).1 = none) ∧
    (get_count st).1 = 0 := by
  obtain ⟨d, m⟩ := st
  rcases h with h | h <;>
    simp only [DbState.mk.injEq] at h <;>
    subst h <;>
    exact ⟨rfl, rfl, fun name => rfl, rfl⟩

/-- Witness for C7 at a concrete corrupt-disk state. -/
theorem C7_registry_load_degrades_witness :
    load_embeddings (⟨.corrupt, [("Bob", 1)]⟩ : DbState ℕ) =
      ([], ⟨.corrupt, []⟩) :=
  (C7_registry_load_degrades (⟨.corrupt, [("Bob", 1)]⟩ : DbState ℕ) (Or.inr rfl)).1

end EmbeddingDatabase

namespace FaceDetector

lemma largestRect_mem (r : Rect) (rest : List Rect) :
    largestRect r rest ∈ r :: rest := by
  induction rest generalizing r with
  | nil => simp [largestRect]
  | cons c cs ih =>
    have hstep : largestRect r (c :: cs) =
        largestRect (if c.w * c.h > r.w * r.h then c else r) cs := rfl
    rw [hstep]
    rcases List.mem_cons.mp (ih (if c.w * c.h > r.w * r.h then c else r)) with h3 | h3
    · rw [h3]
      by_cases hc : c.w * c.h > r.w * r.h
      · simp [hc]
      · simp [hc]
    · exact List.mem_cons_of_mem _ (List.mem_cons_of_mem _ h3)

lemma largestRect_max (r : Rect) (rest : List Rect) :
    ∀ a ∈ r :: rest, a.w * a.h ≤ (largestRect r rest).w * (largestRect r rest).h := by
  induction rest generalizing r with
  | nil =>
    intro a ha
    rcases List.mem_cons.mp ha with h | h
    · subst h; exact le_refl _
    · simp at h
  | cons c cs ih =>
    intro a ha
    have hstep : largestRect r (c :: cs) =
        largestRect (if c.w * c.h > r.w * r.h then c else r) cs := rfl
    rw [hstep]
    set r2 := if c.w * c.h > r.w * r.h then c else r with hr2
    have hr_le : r.w * r.h ≤ r2.w * r2.h := by
      by_cases hc : c.w * c.h > r.w * r.h
      · rw [hr2, if_pos hc]; exact le_of_lt hc
      · rw [hr2, if_neg hc]
    have hc_le : c.w * c.h ≤ r2.w * r2.h := by
      by_cases hc : c.w * c.h > r.w * r.h
      · rw [hr2, if_pos hc]
      · rw [hr2, if_neg hc]; exact le_of_not_lt hc
    rcases List.mem_cons.mp ha with h | h
    · exact h ▸ le_trans hr_le (ih r2 r2 (List.mem_cons_self _ _))
    · rcases List.mem_cons.mp h with h2 | h2
      · exact h2 ▸ le_trans hc_le (ih r2 r2 (List.mem_cons_self _ _))
      · exact ih r2 a (List.mem_cons_of_mem _ h2)

/-- C9: with zero candidate rectangles `detect_face` returns `NotFound`
(`none`); with candidates it selects a maximum-area one — in particular
the area-900 one out of areas 900 and 400 — and returns the resized crop
together with the original, unscaled bounding box. -/
theorem C9_detect_face_largest {Frame Img : Type} (cascade : Frame → List Rect)
    (cropResize : Frame → Rect → Img) :
    (∀ f, cascade f = [] → detect_face cascade cropResize (some f) = none) ∧
    (∀ f r rest, cascade f = r :: rest →
      detect_face cascade cropResize (some f) =
        some (cropResize f (largestRect r rest), largestRect r rest) ∧
      largestRect r rest ∈ cascade f ∧
      ∀ a ∈ cascade f, a.w * a.h ≤ (largestRect r rest).w * (largestRect r rest).h) ∧
    (∀ f (a b : Rect), a.w * a.h = 900 → b.w * b.h = 400 → cascade f = [a, b] →
      detect_face cascade cropResize (some f) = some (cropResize f a, a)) := by
  refine ⟨?_, ?_, ?_⟩
  · intro f h
    simp [detect_face, h]
  · intro f r rest h
    refine ⟨by simp [detect_face, h], h ▸ largestRect_mem r rest, ?_⟩
    intro a ha
    rw [h] at ha
    exact largestRect_max r rest a ha
  · intro f a b ha hb h
    have hsel : largestRect a [b] = a := by
      simp only [largestRect, List.foldl_cons, List.foldl_nil, ha, hb]
      norm_num
    simp [detect_face, h, hsel]

/-- Witness for C9 at a concrete frame and cascade output with areas
900 and 400. -/
theorem C9_detect_face_largest_witness :
    detect_face (fun _ : Unit => [⟨0, 0, 30, 30⟩, ⟨5, 5, 20, 20⟩])
        (fun _ r => r) (some ()) =
      some ((⟨0, 0, 30, 30⟩ : Rect), (⟨0, 0, 30, 30⟩ : Rect)) :=
  (C9_detect_face_largest (fun _ : Unit => [(⟨0, 0, 30, 30⟩ : Rect), ⟨5, 5, 20, 20⟩])
      (fun _ r => r)).2.2 () ⟨0, 0, 30, 30⟩ ⟨5, 5, 20, 20⟩ (by norm_num) (by norm_num) rfl

end FaceDetector

namespace AttendanceManager

/-- C10: `compare_embeddings` returns the bare float `0.0` — not a
`(distance, similarity)` pair — whenever either argument is `None`, so
`find_match` with a `None` query over a non-empty registry fails at the
tuple unpacking instead of returning `NoMatch`. -/
theorem C10_compare_none_bare_float {E : Type} (sim : E → E → ℚ) :
    (∀ e2 : Option E, compare_embeddings sim none e2 = .scalar 0) ∧
    (∀ e1 : E, compare_embeddings sim (some e1) none = .scalar 0) ∧
    (∀ (regs : List (String × E)) (th : ℚ), regs ≠ [] →
      find_match sim none regs th = .error ()) := by
  refine ⟨fun e2 => rfl, fun e1 => rfl, ?_⟩
  intro regs th h
  match regs with
  | [] => exact absurd rfl h
  | p :: rest =>
    simp [find_match, matchLoop, compare_embeddings]

/-- Witness for C10 at a concrete non-empty registry. -/
theorem C10_compare_none_bare_float_witness :
    find_match (fun _ _ => (0 : ℚ)) (none : Option Unit) [("A", ())] 1 = .error () :=
  (C10_compare_none_bare_float (fun _ _ => (0 : ℚ))).2.2 [("A", ())] 1 (by simp)

end AttendanceManager

namespace FaceEmbedder

/-- C8: every accepted face image yields the raw model output divided by
its Euclidean norm, which has unit norm whenever the raw output is not
the zero vector. -/
theorem C8_embedding_unit_norm {Img : Type} {n : ℕ} (run : Img → Fin n → ℝ)
    (im : Img) (hz : run im ≠ 0) :
    get_embedding run (some im) = .ok (l2normalize (run im)) ∧
    l2norm (l2normalize (run im)) = 1 := by
  refine ⟨rfl, ?_⟩
  set v := run im with hv
  have hS : 0 < ∑ i, v i ^ 2 := by
    rcases Function.ne_iff.mp hz with ⟨i, hi⟩
    refine Finset.sum_pos' (fun j _ => sq_nonneg _) ⟨i, Finset.mem_univ i, ?_⟩
    have hvi : v i ≠ 0 := by simpa [hv] using hi
    exact pow_two_pos_of_ne_zero hvi
  have hc : 0 < l2norm v := Real.sqrt_pos.mpr hS
  have hsum : ∑ i, (v i / l2norm v) ^ 2 = 1 := by
    calc ∑ i, (v i / l2norm v) ^ 2
        = ∑ i, v i ^ 2 / (l2norm v) ^ 2 :=
          Finset.sum_congr rfl fun i _ => div_pow _ _ _
      _ = (∑ i, v i ^ 2) / (l2norm v) ^ 2 := (Finset.sum_div _ _ _).symm
      _ = (∑ i, v i ^ 2) / (∑ i, v i ^ 2) := by rw [l2norm, Real.sq_sqrt hS.le]
      _ = 1 := div_self hS.ne'
  have hone : (∑ i, l2normalize v i ^ 2) = 1 := by
    simpa [l2normalize] using hsum
  rw [l2norm, hone, Real.sqrt_one]

/-- Witness for C8 at the concrete raw output `(3, 4)`. -/
theorem C8_embedding_unit_norm_witness :
    get_embedding (fun _ : Unit => ![(3 : ℝ), 4]) (some ()) =
      .ok (l2normalize ![(3 : ℝ), 4]) ∧
    l2norm (l2normalize ![(3 : ℝ), 4]) = 1 :=
  C8_embedding_unit_norm (fun _ : Unit => ![(3 : ℝ), 4]) () (by
    intro h
    have h0 := congrFun h 0
    simp at h0)

end FaceEmbedder

namespace AttendanceManager

lemma matchLoop_some {E : Type} (sim : E → E → ℚ) (qe : E) :
    ∀ (l : List (String × E)) (bn : String) (bd : ℚ),
      (matchLoop sim (some qe) l (some (bn, bd)) = .ok (some (bn, bd)) ∧
        ∀ p ∈ l, bd ≤ 1 - sim qe p.2) ∨
      (∃ i, ∃ h : i < l.length,
        matchLoop sim (some qe) l (some (bn, bd)) =
          .ok (some ((l.get ⟨i, h⟩).1, 1 - sim qe (l.get ⟨i, h⟩).2)) ∧
        1 - sim qe (l.get ⟨i, h⟩).2 < bd ∧
        (∀ p ∈ l, 1 - sim qe (l.get ⟨i, h⟩).2 ≤ 1 - sim qe p.2) ∧
        (∀ p ∈ l.take i, 1 - sim qe (l.get ⟨i, h⟩).2 < 1 - sim qe p.2)) := by
  intro l
  induction l with
  | nil =>
    intro bn bd
    left
    exact ⟨rfl, by simp⟩
  | cons p rest ih =>
    intro bn bd
    have hstep : matchLoop sim (some qe) (p :: rest) (some (bn, bd)) =
        if 1 - sim qe p.2 < bd
        then matchLoop sim (some qe) rest (some (p.1, 1 - sim qe p.2))
        else matchLoop sim (some qe) rest (some (bn, bd)) := rfl
    by_cases hc : 1 - sim qe p.2 < bd
    · rw [hstep, if_pos hc]
      rcases ih p.1 (1 - sim qe p.2) with ⟨heq, hall⟩ | ⟨i, hi, heq, hlt, hmin, hfirst⟩
      · right
        refine ⟨0, by simp, heq, hc, ?_, ?_⟩
        · intro p2 hp2
          rcases List.mem_cons.mp hp2 with h | h
          · subst h; exact le_refl _
          · exact hall p2 h
        · intro p2 hp2
          simp at hp2
      · right
        refine ⟨i + 1, by simpa using Nat.succ_lt_succ hi, heq, lt_trans hlt hc, ?_, ?_⟩
        · intro p2 hp2
          rcases List.mem_cons.mp hp2 with h | h
          · subst h; exact le_of_lt hlt
          · exact hmin p2 h
        · intro p2 hp2
          rw [List.take_succ_cons] at hp2
          rcases List.mem_cons.mp hp2 with h | h
          · subst h; exact hlt
          · exact hfirst p2 h
    · rw [hstep, if_neg hc]
      rcases ih bn bd with ⟨heq, hall⟩ | ⟨i, hi, heq, hlt, hmin, hfirst⟩
      · left
        refine ⟨heq, ?_⟩
        intro p2 hp2
        rcases List.mem_cons.mp hp2 with h | h
        · subst h; exact le_of_not_lt hc
        · exact hall p2 h
      · right
        refine ⟨i + 1, by simpa using Nat.succ_lt_succ hi, heq, hlt, ?_, ?_⟩
        · intro p2 hp2
          rcases List.mem_cons.mp hp2 with h | h
          · subst h; exact le_of_lt (lt_of_lt_of_le hlt (le_of_not_lt hc))
          · exact hmin p2 h
        · intro p2 hp2
          rw [List.take_succ_cons] at hp2
          rcases List.mem_cons.mp hp2 with h | h
          · subst h; exact lt_of_lt_of_le hlt (le_of_not_lt hc)
          · exact hfirst p2 h

/-- C3: `find_match` on an empty registry returns `NoMatch` for any query
and threshold; on a non-empty registry (whose names, per the data model,
are non-empty) it finds the first entry of minimum cosine distance — the
linear scan with a strictly-less update — and returns it exactly when
that distance is strictly below the threshold, otherwise `NoMatch`. -/
theorem C3_find_match_scan {E : Type} (sim : E → E → ℚ) :
    (∀ (q : Option E) (th : ℚ), find_match sim q [] th = .ok none) ∧
    (∀ (qe : E) (l : List (String × E)) (th : ℚ), l ≠ [] →
      (∀ p ∈ l, p.1 ≠ "") →
      ∃ i, ∃ h : i < l.length,
        (∀ p ∈ l, 1 - sim qe (l.get ⟨i, h⟩).2 ≤ 1 - sim qe p.2) ∧
        (∀ p ∈ l.take i, 1 - sim qe (l.get ⟨i, h⟩).2 < 1 - sim qe p.2) ∧
        find_match sim (some qe) l th =
          .ok (if 1 - sim qe (l.get ⟨i, h⟩).2 < th
               then some ((l.get ⟨i, h⟩).1, 1 - sim qe (l.get ⟨i, h⟩).2)
               else none)) := by
  refine ⟨fun q th => rfl, ?_⟩
  intro qe l th hne hnames
  match l, hne with
  | p :: rest, _ =>
    have hstart : matchLoop sim (some qe) (p :: rest) none =
        matchLoop sim (some qe) rest (some (p.1, 1 - sim qe p.2)) := rfl
    rcases matchLoop_some sim qe rest p.1 (1 - sim qe p.2) with
      ⟨heq, hall⟩ | ⟨i, hi, heq, hlt, hmin, hfirst⟩
    · refine ⟨0, by simp, ?_, ?_, ?_⟩
      · intro p2 hp2
        rcases List.mem_cons.mp hp2 with h | h
        · subst h; exact le_refl _
        · exact hall p2 h
      · intro p2 hp2
        simp at hp2
      · have hloop : matchLoop sim (some qe) (p :: rest) none =
            .ok (some (p.1, 1 - sim qe p.2)) := by rw [hstart]; exact heq
        have hname : p.1 ≠ "" := hnames p (List.mem_cons_self _ _)
        show find_match sim (some qe) (p :: rest) th =
          .ok (if 1 - sim qe p.2 < th then some (p.1, 1 - sim qe p.2) else none)
        by_cases hth : 1 - sim qe p.2 < th
        · rw [if_pos hth]
          simp [find_match, hloop, hname, hth]
        · rw [if_neg hth]
          simp [find_match, hloop, hname, hth]
    · refine ⟨i + 1, by simpa using Nat.succ_lt_succ hi, ?_, ?_, ?_⟩
      · intro p2 hp2
        rcases List.mem_cons.mp hp2 with h | h
        · subst h; exact le_of_lt hlt
        · exact hmin p2 h
      · intro p2 hp2
        rw [List.take_succ_cons] at hp2
        rcases List.mem_cons.mp hp2 with h | h
        · subst h; exact hlt
        · exact hfirst p2 h
      · have hloop : matchLoop sim (some qe) (p :: rest) none =
            .ok (some ((rest.get ⟨i, hi⟩).1, 1 - sim qe (rest.get ⟨i, hi⟩).2)) := by
          rw [hstart]; exact heq
        have hname : (rest.get ⟨i, hi⟩).1 ≠ "" :=
          hnames _ (List.mem_cons_of_mem _ (List.get_mem rest i hi))
        show find_match sim (some qe) (p :: rest) th =
          .ok (if 1 - sim qe (rest.get ⟨i, hi⟩).2 < th
               then some ((rest.get ⟨i, hi⟩).1, 1 - sim qe (rest.get ⟨i, hi⟩).2)
               else none)
        by_cases hth : 1 - sim qe (rest.get ⟨i, hi⟩).2 < th
        · rw [if_pos hth]
          simp only [find_match, hloop, List.length_cons]
          rw [if_neg (Nat.succ_ne_zero _), if_pos ⟨hname, hth⟩]
        · rw [if_neg hth]
          simp only [find_match, hloop, List.length_cons]
          rw [if_neg (Nat.succ_ne_zero _), if_neg (fun hand => hth hand.2)]

/-- Witness for C3 at a one-entry registry. -/
theorem C3_find_match_scan_witness :
    find_match (fun _ _ => (1 : ℚ)) (some ()) [("A", ())] (1 / 2) =
      .ok (some ("A", 0)) := by
  obtain ⟨i, hi, hmin, hfirst, heq⟩ :=
    (C3_find_match_scan (fun _ _ => (1 : ℚ))).2 () [("A", ())] (1 / 2)
      (by decide) (by decide)
  have hzero : i = 0 := Nat.lt_one_iff.mp (by simpa using hi)
  subst hzero
  norm_num at heq
  exact heq

lemma descLE_trans : ∀ a b c : AttendanceRecord,
    descLE a b = true → descLE b c = true → descLE a c = true := by
  intro a b c hab hbc
  simp only [descLE, Bool.or_eq_true, Bool.and_eq_true, decide_eq_true_eq,
    beq_iff_eq] at hab hbc ⊢
  rcases hab with h1 | ⟨h1e, h1t⟩ <;> rcases hbc with h2 | ⟨h2e, h2t⟩
  · exact Or.inl (lt_trans h2 h1)
  · exact Or.inl (by rw [h2e]; exact h1)
  · exact Or.inl (by rw [← h1e]; exact h2)
  · exact Or.inr ⟨h2e.trans h1e, le_trans h2t h1t⟩

lemma descLE_total : ∀ a b : AttendanceRecord, (descLE a b || descLE b a) = true := by
  intro a b
  simp only [descLE, Bool.or_eq_true, Bool.and_eq_true, decide_eq_true_eq, beq_iff_eq]
  rcases lt_trichotomy a.date.data b.date.data with h | h | h
  · exact Or.inr (Or.inl h)
  · rcases le_total a.time.data b.time.data with ht | ht
    · exact Or.inr (Or.inr ⟨h, ht⟩)
    · exact Or.inl (Or.inr ⟨h.symm, ht⟩)
  · exact Or.inl (Or.inl h)

/-- C6: with the durable store absent, `get_attendance_log` returns the
empty sequence (never an error) for any filters.  With a date filter
that is `None` or non-empty, and a name filter that is `None` or a
non-empty pattern on which the regex engine performs a plain
case-insensitive substring search — which is what `re` does on every
metacharacter-free literal pattern such as `"ali"` — the result is
exactly the stored rows passing the exact date match and the
case-insensitive substring name match, ordered by (Date, Time)
descending.  (For metacharacter patterns the source's semantics is the
regex search itself, and an invalid pattern raises `re.error`; both live
in the `search` parameter of the definition and are outside this
claim.) -/
theorem C6_get_log_filter_sort (search : String → Option (String → Bool)) :
    (∀ dateF nameF, get_attendance_log search none dateF nameF = .ok []) ∧
    (∀ (rs : List AttendanceRecord) (dateF nameF : Option String),
      dateF ≠ some "" →
      (∀ f, nameF = some f → f ≠ "" ∧ ∃ m, search f = some m ∧
        ∀ s, m s = strHasSub (pyLower s).data (pyLower f).data) →
      get_attendance_log search (some rs) dateF nameF =
        .ok ((rs.filter (logPred dateF nameF)).mergeSort descLE) ∧
      ((rs.filter (logPred dateF nameF)).mergeSort descLE).Perm
        (rs.filter (logPred dateF nameF)) ∧
      List.Pairwise (fun a b => descLE a b = true)
        ((rs.filter (logPred dateF nameF)).mergeSort descLE)) := by
  refine ⟨fun dateF nameF => rfl, ?_⟩
  intro rs dateF nameF hd hname
  refine ⟨?_, List.mergeSort_perm _ _, List.sorted_mergeSort descLE_trans descLE_total _⟩
  by_cases hlen : rs.length = 0
  · have hnil : rs = [] := List.length_eq_zero.mp hlen
    subst hnil
    simp [get_attendance_log]
  · rcases dateF with _ | d
    · rcases nameF with _ | f
      · have hfeq : List.filter (logPred none none) rs = rs := by
          have h1 : List.filter (logPred none none) rs =
              List.filter (fun _ => true) rs :=
            List.filter_congr fun r _ => by simp [logPred]
          rw [h1, List.filter_true]
        simp [get_attendance_log, hlen, hfeq]
      · obtain ⟨hf2, m, hm, hms⟩ := hname f rfl
        have hmeq : List.filter (fun r => m r.name) rs =
            List.filter (fun r => strHasSub (pyLower r.name).data (pyLower f).data) rs :=
          List.filter_congr fun r _ => hms r.name
        have hfeq : List.filter (logPred none (some f)) rs =
            List.filter (fun r => strHasSub (pyLower r.name).data (pyLower f).data) rs :=
          List.filter_congr fun r _ => by simp [logPred]
        simp [get_attendance_log, hlen, hf2, hm, hmeq, hfeq]
    · have hd2 : ¬(d = "") := fun h => hd (by rw [h])
      rcases nameF with _ | f
      · have hfeq : List.filter (logPred (some d) none) rs =
            List.filter (fun r => r.date == d) rs :=
          List.filter_congr fun r _ => by simp [logPred]
        simp [get_attendance_log, hlen, hd2, hfeq]
      · obtain ⟨hf2, m, hm, hms⟩ := hname f rfl
        have hmeq : List.filter (fun r => m r.name) (rs.filter fun r => r.date == d) =
            List.filter (fun r => strHasSub (pyLower r.name).data (pyLower f).data)
              (rs.filter fun r => r.date == d) :=
          List.filter_congr fun r _ => hms r.name
        have hcomm : (rs.filter fun r => r.date == d).filter
            (fun r => strHasSub (pyLower r.name).data (pyLower f).data) =
            rs.filter (logPred (some d) (some f)) := by
          rw [List.filter_filter]
          exact List.filter_congr fun r _ => by simp [logPred, Bool.and_comm]
        simp [get_attendance_log, hlen, hd2, hf2, hm, hmeq, hcomm]

/-- Witness for C6 at a concrete two-row store, both filters supplied,
with a regex engine that on the literal pattern behaves as the
case-insensitive substring search. -/
theorem C6_get_log_filter_sort_witness :
    get_attendance_log
        (fun f => some fun s => strHasSub (pyLower s).data (pyLower f).data)
        (some [⟨"Alice", "2024-01-01", "09:00:00"⟩,
               ⟨"Khalid", "2024-01-02", "08:00:00"⟩])
        (some "2024-01-01") (some "ali") =
      .ok (([⟨"Alice", "2024-01-01", "09:00:00"⟩,
             ⟨"Khalid", "2024-01-02", "08:00:00"⟩].filter
              (logPred (some "2024-01-01") (some "ali"))).mergeSort descLE) ∧
    (([(⟨"Alice", "2024-01-01", "09:00:00"⟩ : AttendanceRecord),
       ⟨"Khalid", "2024-01-02", "08:00:00"⟩].filter
        (logPred (some "2024-01-01") (some "ali"))).mergeSort descLE).Perm
      ([⟨"Alice", "2024-01-01", "09:00:00"⟩,
        ⟨"Khalid", "2024-01-02", "08:00:00"⟩].filter
        (logPred (some "2024-01-01") (some "ali"))) ∧
    List.Pairwise (fun a b => descLE a b = true)
      (([(⟨"Alice", "2024-01-01", "09:00:00"⟩ : AttendanceRecord),
         ⟨"Khalid", "2024-01-02", "08:00:00"⟩].filter
          (logPred (some "2024-01-01") (some "ali"))).mergeSort descLE) :=
  (C6_get_log_filter_sort
      (fun f => some fun s => strHasSub (pyLower s).data (pyLower f).data)).2
    [⟨"Alice", "2024-01-01", "09:00:00"⟩, ⟨"Khalid", "2024-01-02", "08:00:00"⟩]
    (some "2024-01-01") (some "ali") (by decide)
    (by
      intro f hf
      injection hf with h
      subst h
      exact ⟨by decide, ⟨_, rfl, fun s => rfl⟩⟩)

end AttendanceManager
